import Mathlib

/-!
Shallow embedding of `great_expectations/render/renderer/suite_edit_notebook_renderer.py`
(class `SuiteEditNotebookRenderer`) and proofs about its rendering pipeline.

Modelling conventions:
- Python values appearing in expectation kwargs / meta / batch kwargs are modelled by
  `PyVal` (strings, ints, bools and dicts with string keys; other types do not occur
  in the claims under study).
- A Python `dict` is modelled as an insertion-ordered association list
  (`List (String × PyVal)`) with unique keys; key update keeps the key's position,
  as CPython's `dict` does.
- The renderer appends cells to `self._notebook["cells"]`; we model each `add_*`
  method as the list of cells it appends, and `render` as the concatenation.
- Template expansion (jinja2), linting and nbformat serialization are external
  collaborators: a cell is modelled symbolically by the template name, the lint flag
  and the parameter mapping passed to the template, not by expanded text.
- Two functions of the source mutate an argument in place
  (`_build_meta_arguments` pops a key from the caller's `meta`;
  `_fix_path_in_batch_kwargs` assigns into the dict it was given).  For each we
  define both the returned value and a `..._after` function giving the state of
  the caller's object after the call, which is how the mutation is observed.
-/

namespace SuiteEditNotebook

/-- Python values occurring in expectation kwargs, meta mappings and batch kwargs. -/
inductive PyVal where
  | str (s : String)
  | int (n : Int)
  | bool (b : Bool)
  | dict (d : List (String × PyVal))

mutual

/-- Structural (Python `==`) equality on `PyVal`, Boolean valued. -/
def PyVal.beq : PyVal → PyVal → Bool
  | .str a, .str b => a == b
  | .int a, .int b => a == b
  | .bool a, .bool b => a == b
  | .dict a, .dict b => PyVal.beqEntries a b
  | _, _ => false

/-- Entrywise equality of dict entry lists. -/
def PyVal.beqEntries : List (String × PyVal) → List (String × PyVal) → Bool
  | [], [] => true
  | (k, v) :: r, (k2, v2) :: r2 => k == k2 && PyVal.beq v v2 && PyVal.beqEntries r r2
  | _, _ => false

end

mutual

theorem PyVal.beq_iff : ∀ a b : PyVal, PyVal.beq a b = true ↔ a = b
  | .str _, .str _ => by simp [PyVal.beq]
  | .str _, .int _ => by simp [PyVal.beq]
  | .str _, .bool _ => by simp [PyVal.beq]
  | .str _, .dict _ => by simp [PyVal.beq]
  | .int _, .str _ => by simp [PyVal.beq]
  | .int _, .int _ => by simp [PyVal.beq]
  | .int _, .bool _ => by simp [PyVal.beq]
  | .int _, .dict _ => by simp [PyVal.beq]
  | .bool _, .str _ => by simp [PyVal.beq]
  | .bool _, .int _ => by simp [PyVal.beq]
  | .bool _, .bool _ => by simp [PyVal.beq]
  | .bool _, .dict _ => by simp [PyVal.beq]
  | .dict _, .str _ => by simp [PyVal.beq]
  | .dict _, .int _ => by simp [PyVal.beq]
  | .dict _, .bool _ => by simp [PyVal.beq]
  | .dict a, .dict b => by
      simp only [PyVal.beq]
      rw [PyVal.beqEntries_iff a b]
      constructor
      · intro h; rw [h]
      · intro h; cases h; rfl

theorem PyVal.beqEntries_iff : ∀ a b : List (String × PyVal),
    PyVal.beqEntries a b = true ↔ a = b
  | [], [] => by simp [PyVal.beqEntries]
  | [], _ :: _ => by simp [PyVal.beqEntries]
  | _ :: _, [] => by simp [PyVal.beqEntries]
  | (k, v) :: r, (k2, v2) :: r2 => by
      simp only [PyVal.beqEntries, Bool.and_eq_true, beq_iff_eq]
      rw [PyVal.beq_iff v v2, PyVal.beqEntries_iff r r2]
      constructor
      · rintro ⟨⟨h1, h2⟩, h3⟩; rw [h1, h2, h3]
      · intro h; cases h; exact ⟨⟨rfl, rfl⟩, rfl⟩

end

instance : BEq PyVal := ⟨PyVal.beq⟩

instance : LawfulBEq PyVal where
  eq_of_beq h := (PyVal.beq_iff _ _).1 h
  rfl := (PyVal.beq_iff _ _).2 rfl

instance : DecidableEq PyVal := fun a b =>
  decidable_of_iff (PyVal.beq a b = true) (PyVal.beq_iff a b)

mutual

/-- Python `repr` of a value: strings quoted, `True`/`False` for bools, and
dicts as `\x7b'k': v, ...\x7d` (CPython dict repr, insertion order). -/
def pyRepr : PyVal → String
  | .str s => "\x27" ++ s ++ "\x27"
  | .int n => toString n
  | .bool b => if b then "True" else "False"
  | .dict d => "\x7b" ++ pyReprEntries d ++ "\x7d"

/-- Comma-joined `'key': repr(value)` entries of a dict repr. -/
def pyReprEntries : List (String × PyVal) → String
  | [] => ""
  | [(k, v)] => "\x27" ++ k ++ "\x27: " ++ pyRepr v
  | (k, v) :: e :: rest => "\x27" ++ k ++ "\x27: " ++ pyRepr v ++ ", " ++ pyReprEntries (e :: rest)

end

/-- Python `str` of a value: like `repr` except strings are unquoted.
This is what `"\x7b\x7d".format(v)` interpolates. -/
def pyStr : PyVal → String
  | .str s => s
  | v => pyRepr v

/-- A Python dict, as an insertion-ordered association list with unique keys. -/
abbrev Dict := List (String × PyVal)

/-- Python `k in d.keys()`. -/
def dictHasKey (d : Dict) (k : String) : Bool :=
  d.any (fun kv => kv.1 == k)

/-- Python `d[k]` / `d.get(k)`, as an `Option`. -/
def dictGet (d : Dict) (k : String) : Option PyVal :=
  (d.find? (fun kv => kv.1 == k)).map (fun kv => kv.2)

/-- Python `d[k] = v`: update in place keeping the key's position, or append. -/
def dictSet (d : Dict) (k : String) (v : PyVal) : Dict :=
  if dictHasKey d k then d.map (fun kv => if kv.1 == k then (k, v) else kv)
  else d ++ [(k, v)]

/-- Python `d.pop(k)`: the dict with key `k` removed. -/
def dictPop (d : Dict) (k : String) : Dict :=
  d.filter (fun kv => kv.1 != k)

/-- One expectation of a suite: its type name, its kwargs mapping
(`exp["kwargs"]`) and its meta mapping (`exp.meta`; an absent/`None` meta is
modelled as the empty mapping, which the source treats identically). -/
structure Expectation where
  expectation_type : String
  kwargs : Dict
  meta : Dict
  deriving DecidableEq

/-- Fragment produced by one iteration of the loop in `_build_kwargs_string`:
the `column` value becomes a bare quoted positional literal, other string values
become `name='value'`, any other value becomes `name=value`. -/
def kwargFragment (kv : String × PyVal) : String :=
  if kv.1 == "column" then "\x27" ++ pyStr kv.2 ++ "\x27"
  else
    match kv.2 with
    | .str s => kv.1 ++ "=\x27" ++ s ++ "\x27"
    | v => kv.1 ++ "=" ++ pyStr v

/-- Embeds `SuiteEditNotebookRenderer._build_kwargs_string`: render each kwargs
entry in iteration (insertion) order and join with `", "`. -/
def build_kwargs_string (expectation : Expectation) : String :=
  String.intercalate ", " (expectation.kwargs.map kwargFragment)

/-- Embeds the return value of `SuiteEditNotebookRenderer._build_meta_arguments`:
empty string for an empty meta; otherwise pop the profiler marker key from the
mapping and render `, meta=...` of what remains, or the empty string if nothing
remains. -/
def build_meta_arguments (meta : Dict) : String :=
  if meta.isEmpty then ""
  else
    let remaining :=
      if dictHasKey meta "BasicSuiteBuilderProfiler" then
        dictPop meta "BasicSuiteBuilderProfiler"
      else meta
    if remaining.isEmpty then ""
    else ", meta=" ++ pyStr (.dict remaining)

/-- State of the caller's `meta` mapping after `_build_meta_arguments` returns:
the source executes `meta.pop(profiler)` on the very object it was given, so the
marker key is removed from the caller's mapping (no copy is made). -/
def build_meta_arguments_meta_after (meta : Dict) : Dict :=
  if meta.isEmpty then meta
  else
    if dictHasKey meta "BasicSuiteBuilderProfiler" then
      dictPop meta "BasicSuiteBuilderProfiler"
    else meta

/-- The grouping result of `_get_expectations_by_column`: a Python dict whose keys
are the string `"table_expectations"` plus column values, in insertion order. -/
abbrev Buckets := List (PyVal × List Expectation)

/-- Python `key in buckets.keys()`. -/
def bucketHasKey (buckets : Buckets) (key : PyVal) : Bool :=
  buckets.any (fun b => b.1 == key)

/-- Python `buckets[key]`, as an `Option`. -/
def bucketGet (buckets : Buckets) (key : PyVal) : Option (List Expectation) :=
  (buckets.find? (fun b => b.1 == key)).map (fun b => b.2)

/-- Python `buckets[key].append(exp)` for an existing key. -/
def bucketAppend (buckets : Buckets) (key : PyVal) (exp : Expectation) : Buckets :=
  buckets.map (fun b => if b.1 == key then (b.1, b.2 ++ [exp]) else b)

/-- Python `buckets.pop(key)`. -/
def bucketPop (buckets : Buckets) (key : PyVal) : Buckets :=
  buckets.filter (fun b => !(b.1 == key))

/-- One iteration of the loop in `_get_expectations_by_column`: a rule with a
`column` kwarg goes to that column's bucket (created at the end, in first-seen
order, if new); any other rule goes to the `"table_expectations"` bucket. -/
def groupStep (acc : Buckets) (exp : Expectation) : Buckets :=
  match dictGet exp.kwargs "column" with
  | some col =>
      if bucketHasKey acc col then bucketAppend acc col exp
      else acc ++ [(col, [exp])]
  | none => bucketAppend acc (.str "table_expectations") exp

/-- Embeds `SuiteEditNotebookRenderer._get_expectations_by_column`: fold the
loop over the suite's rules starting from `\x7b"table_expectations": []\x7d`. -/
def get_expectations_by_column (expectations : List Expectation) : Buckets :=
  expectations.foldl groupStep [(.str "table_expectations", [])]

/-- Python `os.path.isabs` on the POSIX paths used by the source: the path
starts with the separator `/`. -/
def isabs (p : String) : Bool :=
  match p.data with
  | [] => false
  | c :: _ => c == '/'

/-- Embeds the dict branch of `_fix_path_in_batch_kwargs`: if the mapping holds a
relative (string) `path`, assign `os.path.join("..", "..", path)` back into the
mapping; otherwise the mapping is left as it was.  (A non-string `path` would
raise in `os.path.isabs` and does not occur.)  The assignment happens on the
dict object itself, so this is both the return value and the state of that dict
after the call. -/
def fix_path_dict (d : Dict) : Dict :=
  match dictGet d "path" with
  | some (.str p) => if isabs p then d else dictSet d "path" (.str ("../../" ++ p))
  | _ => d

/-- The `batch_kwargs` argument of `render` / `get_batch_kwargs`: `None`, a plain
dict, or a typed `BatchKwargs` (an id-dict, here carried by its entries). -/
inductive BKInput where
  | none
  | dict (d : Dict)
  | batchKwargs (d : Dict)
  deriving DecidableEq

/-- The entries seen by `_fix_path_in_batch_kwargs` after its
`isinstance(batch_kwargs, BatchKwargs)` conversion: `dict(batch_kwargs)` copies a
typed `BatchKwargs` into a fresh plain dict. -/
def bkAsOption : BKInput → Option Dict
  | .none => Option.none
  | .dict d => some d
  | .batchKwargs d => some d

/-- Embeds `SuiteEditNotebookRenderer._fix_path_in_batch_kwargs` on the
`batch_kwargs` argument forms: `None` passes through, anything else is converted
to a plain dict if needed and path-fixed. -/
def fix_path_in_batch_kwargs (bk : BKInput) : Option Dict :=
  (bkAsOption bk).map fix_path_dict

/-- Embeds `_fix_path_in_batch_kwargs` on an optional plain dict (the form taken
from a citation's `batch_kwargs` entry). -/
def fix_path_opt (bk : Option Dict) : Option Dict :=
  bk.map fix_path_dict

/-- One provenance entry of `suite.meta["citations"]`: only its optional
`batch_kwargs` descriptor matters to this renderer. -/
structure Citation where
  batch_kwargs : Option Dict
  deriving DecidableEq

/-- An expectation suite as consumed by the renderer: its name, its ordered
rules, and its citation list (`suite.meta.get("citations")`; an absent or empty
citations entry is modelled as `[]`, which the source treats identically).
Citations are held oldest first, most recent last. -/
structure Suite where
  expectation_suite_name : String
  expectations : List Expectation
  citations : List Citation
  deriving DecidableEq

/-- Modelled from the spec: `ExpectationSuite.get_citations(require_batch_kwargs=True)`
is not part of the source under study; per the spec it selects the provenance
entries that carry a source descriptor, keeping most-recent-last order. -/
def get_citations_with_batch_kwargs (suite : Suite) : List Citation :=
  suite.citations.filter (fun c => c.batch_kwargs.isSome)

/-- Embeds `SuiteEditNotebookRenderer.get_batch_kwargs`.  `BatchKwargs`
subclasses `dict` (through `IDDict`), so the guard
`isinstance(batch_kwargs, dict)` accepts a plain dict and a typed
`BatchKwargs` alike: any mapping override is path-fixed and returned at once
(this is the docstring's "If batch_kwargs are passed they will override any
found in suite citations").  Only when no mapping was passed (`None`) are the
citations consulted: with no citations the absent override is passed through
`_fix_path_in_batch_kwargs` (returning `None`); with citations but none
carrying a descriptor the result is `None`; otherwise the last
descriptor-carrying citation's `batch_kwargs` is path-fixed and returned. -/
def get_batch_kwargs (suite : Suite) (batch_kwargs : BKInput) : Option Dict :=
  match batch_kwargs with
  | .dict d => some (fix_path_dict d)
  | .batchKwargs d => some (fix_path_dict d)
  | .none =>
      if suite.citations.isEmpty then fix_path_in_batch_kwargs BKInput.none
      else
        match (get_citations_with_batch_kwargs suite).getLast? with
        | Option.none => Option.none
        | some citation => fix_path_opt citation.batch_kwargs

/-- State of the caller's `batch_kwargs` argument after `get_batch_kwargs`
returns: a plain dict is handed to `_fix_path_in_batch_kwargs` unconverted, so
the path assignment lands in the caller's own dict; a typed `BatchKwargs` is
first copied by `dict(...)` and `None` is returned as is, so neither is
mutated. -/
def get_batch_kwargs_caller_after (batch_kwargs : BKInput) : BKInput :=
  match batch_kwargs with
  | .dict d => .dict (fix_path_dict d)
  | bk => bk

/-- A template parameter value passed to the jinja2 template of a cell. -/
inductive TParam where
  | s (v : String)
  | d (v : Dict)
  | e (v : Expectation)
  | p (v : PyVal)
  deriving DecidableEq

/-- A notebook cell, symbolically: the template it is rendered from, for code
cells whether the result is linted, and the template parameters. -/
inductive Cell where
  | markdown (template : String) (params : List (String × TParam))
  | code (template : String) (lint : Bool) (params : List (String × TParam))
  deriving DecidableEq

/-- Renderer construction parameters that affect cell output: the optional
`header_markdown` notebook config (template file name and extra template
kwargs). -/
structure RendererConfig where
  header_markdown : Option (String × List (String × TParam))

/-- Embeds `add_header`: the header markdown cell (custom template if configured,
else `HEADER.md`), then the `header.py` code cell with the suite name and the
resolved batch kwargs (an absent resolution becomes an empty dict). -/
def add_header (cfg : RendererConfig) (suite_name : String) (batch_kwargs : Option Dict) :
    List Cell :=
  let headerCell :=
    match cfg.header_markdown with
    | some fk => Cell.markdown fk.1 (("suite_name", TParam.s suite_name) :: fk.2)
    | Option.none => Cell.markdown "HEADER.md" [("suite_name", TParam.s suite_name)]
  [headerCell,
   Cell.code "header.py" true
     [("suite_name", TParam.s suite_name), ("batch_kwargs", TParam.d (batch_kwargs.getD []))]]

/-- Embeds `add_footer`: the `FOOTER.md` markdown cell then the unlinted
`footer.py` code cell. -/
def add_footer : List Cell :=
  [Cell.markdown "FOOTER.md" [], Cell.code "footer.py" false []]

/-- The code cell emitted per table-scope rule by `_add_table_level_expectations`. -/
def table_expectation_cell (exp : Expectation) : Cell :=
  Cell.code "table_expectation.py" true
    [("expectation", TParam.e exp),
     ("kwargs_string", TParam.s (build_kwargs_string exp))]

/-- Embeds `_add_table_level_expectations`: a "none found" markdown cell when the
`table_expectations` bucket is empty, else one code cell per rule in it.  (The
bucket is always present after grouping; a missing key would raise in Python.) -/
def add_table_level_expectations (ebc : Buckets) : List Cell :=
  match bucketGet ebc (.str "table_expectations") with
  | some tableExps =>
      if tableExps.isEmpty then [Cell.markdown "TABLE_EXPECTATIONS_NOT_FOUND.md" []]
      else tableExps.map table_expectation_cell
  | Option.none => []

/-- The code cell emitted per column rule by `_add_column_level_expectations`:
its template receives the expectation, the kwargs string and the meta fragment. -/
def column_expectation_cell (exp : Expectation) : Cell :=
  Cell.code "column_expectation.py" true
    [("expectation", TParam.e exp),
     ("kwargs_string", TParam.s (build_kwargs_string exp)),
     ("meta_args", TParam.s (build_meta_arguments exp.meta))]

/-- Cells of one column bucket: the per-column `COLUMN_EXPECTATIONS.md` header
then one code cell per rule in the bucket. -/
def column_bucket_cells (b : PyVal × List Expectation) : List Cell :=
  Cell.markdown "COLUMN_EXPECTATIONS.md" [("column", TParam.p b.1)] ::
    b.2.map column_expectation_cell

/-- Embeds `_add_column_level_expectations`: a "none found" markdown cell when no
column buckets remain, else per-column header and rule cells in bucket order. -/
def add_column_level_expectations (ebc : Buckets) : List Cell :=
  if ebc.isEmpty then [Cell.markdown "COLUMN_EXPECTATIONS_NOT_FOUND.md" []]
  else (ebc.map column_bucket_cells).flatten

/-- Embeds `add_expectation_cells_from_suite`: group the rules, emit the table
section header and table-level cells, pop the table bucket, then emit the column
section header and column-level cells. -/
def add_expectation_cells_from_suite (expectations : List Expectation) : List Cell :=
  let ebc := get_expectations_by_column expectations
  (Cell.markdown "TABLE_EXPECTATIONS_HEADER.md" [] :: add_table_level_expectations ebc)
    ++ (Cell.markdown "COLUMN_EXPECTATIONS_HEADER.md" []
        :: add_column_level_expectations (bucketPop ebc (.str "table_expectations")))

/-- The argument `render` receives: either an actual suite, or any other object
(which fails the `isinstance(suite, ExpectationSuite)` check). -/
inductive RenderInput where
  | suite (s : Suite)
  | notASuite

/-- The error `render` raises before building anything:
`RuntimeWarning("render must be given an ExpectationSuite.")`. -/
inductive RenderError where
  | invalidInputKind
  deriving DecidableEq

/-- Embeds `SuiteEditNotebookRenderer.render`: reject a non-suite input before
any cell exists, else resolve batch kwargs and emit header, authoring intro,
expectation cells and footer in that order. -/
def render (cfg : RendererConfig) (input : RenderInput) (batch_kwargs : BKInput) :
    Except RenderError (List Cell) :=
  match input with
  | .notASuite => .error .invalidInputKind
  | .suite s =>
      let bk := get_batch_kwargs s batch_kwargs
      .ok (add_header cfg s.expectation_suite_name bk
        ++ (Cell.markdown "AUTHORING_INTRO.md" []
            :: (add_expectation_cells_from_suite s.expectations ++ add_footer)))

/-- A rule has a `column` kwarg (decides which bucket it joins). -/
def hasColumn (e : Expectation) : Bool :=
  (dictGet e.kwargs "column").isSome

/-- A rule's `column` kwarg equals the given value. -/
def colIs (c : PyVal) (e : Expectation) : Bool :=
  dictGet e.kwargs "column" == some c

/-- The distinct `column` values of a rule list, in order of first appearance. -/
def firstSeenCols : List Expectation → List PyVal
  | [] => []
  | e :: rest =>
      match dictGet e.kwargs "column" with
      | some c => c :: (firstSeenCols rest).filter (fun c2 => !(c2 == c))
      | none => firstSeenCols rest

/-- The grouping `_get_expectations_by_column` is proved to compute: the table
bucket first, holding the column-free rules in order, then one bucket per column
in first-seen order, holding that column's rules in order. -/
def canonBuckets (processed : List Expectation) : Buckets :=
  (.str "table_expectations", processed.filter (fun e => !(hasColumn e))) ::
    (firstSeenCols processed).map (fun c => (c, processed.filter (colIs c)))

theorem dictGet_nil (k : String) : dictGet [] k = Option.none := rfl

theorem dictGet_cons (a : String × PyVal) (d : Dict) (k : String) :
    dictGet (a :: d) k = if a.1 == k then some a.2 else dictGet d k := by
  by_cases h : (a.1 == k) = true
  · simp [dictGet, List.find?, h]
  · simp [dictGet, List.find?, h]

theorem dictHasKey_cons (a : String × PyVal) (d : Dict) (k : String) :
    dictHasKey (a :: d) k = ((a.1 == k) || dictHasKey d k) := rfl

theorem dictPop_cons (a : String × PyVal) (d : Dict) (k : String) :
    dictPop (a :: d) k = if (a.1 == k) = false then a :: dictPop d k else dictPop d k := by
  by_cases h : (a.1 == k) = true
  · have h2 : a.1 = k := by simpa using h
    simp [dictPop, List.filter_cons, h2, bne]
  · simp [dictPop, List.filter_cons, h, bne, dictPop]

theorem dictGet_update_of_hasKey (k : String) (v : PyVal) :
    ∀ d : Dict, dictHasKey d k = true →
      dictGet (d.map (fun kv => if kv.1 == k then (k, v) else kv)) k = some v
  | [], h => by simp [dictHasKey] at h
  | a :: rest, h => by
      by_cases ha : (a.1 == k) = true
      · rw [List.map_cons, if_pos ha, dictGet_cons]
        simp
      · have ha2 : (a.1 == k) = false := Bool.eq_false_iff.2 ha
        have hr : dictHasKey rest k = true := by
          rw [dictHasKey_cons, ha2, Bool.false_or] at h
          exact h
        rw [List.map_cons, if_neg (by simpa using ha), dictGet_cons,
          if_neg (by simpa using ha)]
        exact dictGet_update_of_hasKey k v rest hr

theorem dictGet_append_single (k : String) (v : PyVal) :
    ∀ d : Dict, dictHasKey d k = false → dictGet (d ++ [(k, v)]) k = some v
  | [], _ => by
      rw [List.nil_append, dictGet_cons]
      simp
  | a :: rest, h => by
      rw [dictHasKey_cons, Bool.or_eq_false_iff] at h
      rw [List.cons_append, dictGet_cons, if_neg (by simp [h.1])]
      exact dictGet_append_single k v rest h.2

theorem dictGet_dictSet_self (k : String) (v : PyVal) (d : Dict) :
    dictGet (dictSet d k v) k = some v := by
  by_cases h : dictHasKey d k = true
  · rw [dictSet, if_pos h]
    exact dictGet_update_of_hasKey k v d h
  · rw [dictSet, if_neg h]
    exact dictGet_append_single k v d (by simpa using h)

theorem dictHasKey_dictPop_self (d : Dict) (k : String) :
    dictHasKey (dictPop d k) k = false := by
  induction d with
  | nil => rfl
  | cons a rest ih =>
      rw [dictPop_cons]
      by_cases h : (a.1 == k) = true
      · rw [if_neg (by simp [h])]
        exact ih
      · rw [if_pos (Bool.eq_false_iff.2 h), dictHasKey_cons, ih,
          Bool.eq_false_iff.2 h, Bool.or_false]

theorem dictGet_dictPop_ne (d : Dict) (k k2 : String) (h : k2 ≠ k) :
    dictGet (dictPop d k) k2 = dictGet d k2 := by
  induction d with
  | nil => rfl
  | cons a rest ih =>
      rw [dictPop_cons, dictGet_cons]
      by_cases hk : (a.1 == k) = true
      · have h2 : (a.1 == k2) = false := by
          rw [beq_iff_eq] at hk
          simp [hk, Ne.symm h]
        rw [if_neg (by simp [hk]), if_neg (by simp [h2])]
        exact ih
      · rw [if_pos (Bool.eq_false_iff.2 hk), dictGet_cons]
        by_cases h2 : (a.1 == k2) = true
        · rw [if_pos h2, if_pos h2]
        · rw [if_neg (by simpa using h2), if_neg (by simpa using h2)]
          exact ih

theorem parent_prefix_ne (p : String) : ("../../" ++ p) ≠ p := by
  intro h
  have hl := congrArg String.length h
  rw [String.length_append, show ("../../" : String).length = 6 by decide] at hl
  omega

/-- Claim C1: the claim states that `_build_kwargs_string` places the `column` value
first regardless of its position in the kwargs mapping, other parameters
following in order — so kwargs `\x7b"min_value": 0, "column": "age"\x7d` would
have to render as `'age', min_value=0`.  The code renders `column` at its
mapping position instead: the result is `min_value=0, 'age'`. -/
theorem C1_counterexample :
    build_kwargs_string
        ⟨"expect_column_values_to_not_be_null",
          [("min_value", PyVal.int 0), ("column", PyVal.str "age")], []⟩
      = "min_value=0, \x27age\x27"
    ∧ build_kwargs_string
        ⟨"expect_column_values_to_not_be_null",
          [("min_value", PyVal.int 0), ("column", PyVal.str "age")], []⟩
      ≠ "\x27age\x27, min_value=0" := by
  exact ⟨rfl, by decide⟩

/-- Claim C1 (amended): `_build_kwargs_string` renders the `column` value as a bare
quoted literal at the position `column` occupies in the mapping; every
parameter, `column` included, keeps its original relative order, so the column
literal comes first exactly when `column` is the mapping's first key (as in the
spec's example). -/
theorem C1_amended_column_in_place :
    (∀ (t : String) (m : Dict) (pre post : Dict) (v : PyVal),
        build_kwargs_string ⟨t, pre ++ ("column", v) :: post, m⟩ =
          String.intercalate ", "
            (pre.map kwargFragment
              ++ ("\x27" ++ pyStr v ++ "\x27") :: post.map kwargFragment))
  ∧ (∀ (t : String) (m : Dict),
        build_kwargs_string
            ⟨t, [("column", PyVal.str "age"), ("min_value", PyVal.int 0),
                 ("strict", PyVal.bool true)], m⟩
          = "\x27age\x27, min_value=0, strict=True") := by
  constructor
  · intro t m pre post v
    simp [build_kwargs_string, kwargFragment]
  · intro t m
    rfl

/-- Claim C2: the claim states that `_build_meta_arguments` removes the profiler
marker key from a copy, leaving the caller's mapping unchanged.  It does not:
the source calls `meta.pop(profiler)` on the caller's mapping, so after the
call a mapping that held only the marker key has become empty. -/
theorem C2_counterexample :
    build_meta_arguments_meta_after [("BasicSuiteBuilderProfiler", PyVal.str "generated")]
      ≠ [("BasicSuiteBuilderProfiler", PyVal.str "generated")] := by
  decide

/-- Claim C2 (amended): the marker-key removal happens in place on the caller's
mapping: after the call the caller's mapping never contains the marker key,
while every other key still maps to its original value. -/
theorem C2_amended_pop_in_place (meta : Dict) :
    dictHasKey (build_meta_arguments_meta_after meta) "BasicSuiteBuilderProfiler" = false
    ∧ ∀ k, k ≠ "BasicSuiteBuilderProfiler" →
        dictGet (build_meta_arguments_meta_after meta) k = dictGet meta k := by
  unfold build_meta_arguments_meta_after
  by_cases he : meta.isEmpty
  · have : meta = [] := by simpa [List.isEmpty_iff] using he
    subst this
    exact ⟨rfl, fun k _ => rfl⟩
  · simp only [he, if_false]
    by_cases hk : dictHasKey meta "BasicSuiteBuilderProfiler"
    · simp only [hk, if_true]
      exact ⟨dictHasKey_dictPop_self meta _, fun k hne => dictGet_dictPop_ne meta _ k hne⟩
    · simp only [hk, if_false]
      exact ⟨by simpa using hk, fun k _ => rfl⟩

theorem C2_amended_pop_in_place_witness :
    dictHasKey
        (build_meta_arguments_meta_after
          [("BasicSuiteBuilderProfiler", PyVal.str "generated"), ("notes", PyVal.str "ok")])
        "BasicSuiteBuilderProfiler" = false
    ∧ dictGet
        (build_meta_arguments_meta_after
          [("BasicSuiteBuilderProfiler", PyVal.str "generated"), ("notes", PyVal.str "ok")])
        "notes"
      = dictGet [("BasicSuiteBuilderProfiler", PyVal.str "generated"), ("notes", PyVal.str "ok")]
          "notes" := by
  refine ⟨(C2_amended_pop_in_place _).1, (C2_amended_pop_in_place _).2 "notes" (by decide)⟩

/-- Claim C5: `_fix_path_in_batch_kwargs` rewrites a relative `path` entry to the same
path behind two parent-directory steps (in place, keeping the entry's
position), and returns a mapping with an absolute `path` unmodified. -/
theorem C5_fix_path_normalization :
    (∀ (d : Dict) (p : String), dictGet d "path" = some (PyVal.str p) → isabs p = false →
        fix_path_dict d = dictSet d "path" (PyVal.str ("../../" ++ p))
        ∧ dictGet (fix_path_dict d) "path" = some (PyVal.str ("../../" ++ p)))
  ∧ (∀ (d : Dict) (p : String), dictGet d "path" = some (PyVal.str p) → isabs p = true →
        fix_path_dict d = d) := by
  constructor
  · intro d p hp habs
    have he : fix_path_dict d = dictSet d "path" (PyVal.str ("../../" ++ p)) := by
      simp [fix_path_dict, hp, habs]
    exact ⟨he, by rw [he, dictGet_dictSet_self]⟩
  · intro d p hp habs
    simp [fix_path_dict, hp, habs]

theorem C5_fix_path_normalization_witness :
    fix_path_dict [("path", PyVal.str "data/file.csv")]
      = [("path", PyVal.str "../../data/file.csv")]
    ∧ fix_path_dict [("path", PyVal.str "/abs/file.csv")]
      = [("path", PyVal.str "/abs/file.csv")] := by
  constructor
  · exact ((C5_fix_path_normalization.1 [("path", PyVal.str "data/file.csv")]
      "data/file.csv" rfl rfl).1).trans (by rfl)
  · exact C5_fix_path_normalization.2 [("path", PyVal.str "/abs/file.csv")]
      "/abs/file.csv" rfl rfl

/-- Claim C6: `_build_meta_arguments` returns the empty string for an empty meta and
for a meta holding only the profiler marker key; otherwise it returns
`, meta=\x7b...\x7d` over the mapping with the marker key removed (so marker
plus `notes` renders only `notes`). -/
theorem C6_build_meta_arguments :
    (build_meta_arguments [] = "")
  ∧ (∀ v, build_meta_arguments [("BasicSuiteBuilderProfiler", v)] = "")
  ∧ (∀ meta : Dict, dictHasKey meta "BasicSuiteBuilderProfiler" = true →
        dictPop meta "BasicSuiteBuilderProfiler" ≠ [] →
        build_meta_arguments meta
          = ", meta=" ++ pyStr (.dict (dictPop meta "BasicSuiteBuilderProfiler")))
  ∧ (∀ meta : Dict, meta ≠ [] → dictHasKey meta "BasicSuiteBuilderProfiler" = false →
        build_meta_arguments meta = ", meta=" ++ pyStr (.dict meta))
  ∧ (∀ v, build_meta_arguments [("BasicSuiteBuilderProfiler", v), ("notes", PyVal.str "ok")]
        = ", meta=\x7b\x27notes\x27: \x27ok\x27\x7d") := by
  refine ⟨rfl, fun v => rfl, ?_, ?_, fun v => rfl⟩
  · intro meta hk hne
    have hme : meta.isEmpty = false := by
      cases meta with
      | nil => simp [dictHasKey] at hk
      | cons a rest => rfl
    have hpe : (dictPop meta "BasicSuiteBuilderProfiler").isEmpty = false := by
      cases hpop : dictPop meta "BasicSuiteBuilderProfiler" with
      | nil => exact absurd hpop hne
      | cons a rest => rfl
    simp [build_meta_arguments, hme, hk, hpe]
  · intro meta hne hk
    have hme : meta.isEmpty = false := by
      cases meta with
      | nil => exact absurd rfl hne
      | cons a rest => rfl
    simp [build_meta_arguments, hme, hk]

theorem C6_build_meta_arguments_witness :
    build_meta_arguments
        [("BasicSuiteBuilderProfiler", PyVal.dict [("created", PyVal.str "x")]),
         ("notes", PyVal.str "ok")]
      = ", meta=" ++ pyStr (.dict (dictPop
          [("BasicSuiteBuilderProfiler", PyVal.dict [("created", PyVal.str "x")]),
           ("notes", PyVal.str "ok")] "BasicSuiteBuilderProfiler")) := by
  exact C6_build_meta_arguments.2.2.1
    [("BasicSuiteBuilderProfiler", PyVal.dict [("created", PyVal.str "x")]),
     ("notes", PyVal.str "ok")] (by decide) (by decide)

/-- Claim C9: `render` called on anything that is not a well-formed suite fails with
the invalid-input condition raised before any cell is built, and never returns
a (partial) document. -/
theorem C9_render_rejects_non_suite (cfg : RendererConfig) (bk : BKInput) :
    render cfg RenderInput.notASuite bk = Except.error RenderError.invalidInputKind
    ∧ ∀ cells : List Cell, render cfg RenderInput.notASuite bk ≠ Except.ok cells := by
  refine ⟨rfl, ?_⟩
  intro cells h
  simp [render] at h

theorem C9_render_rejects_non_suite_witness :
    render ⟨Option.none⟩ RenderInput.notASuite BKInput.none
      = Except.error RenderError.invalidInputKind
    ∧ render ⟨Option.none⟩ RenderInput.notASuite BKInput.none ≠ Except.ok [] :=
  ⟨(C9_render_rejects_non_suite ⟨Option.none⟩ BKInput.none).1,
   (C9_render_rejects_non_suite ⟨Option.none⟩ BKInput.none).2 []⟩

/-- Claim C10: when the caller passes a plain-dict batch-kwargs override with a
relative `path`, the pipeline rewrites the caller's own mapping in place: after
the call the caller's dict holds the `../../`-prefixed path and is no longer
equal to its original value. -/
theorem C10_caller_override_mutated (d : Dict) (p : String)
    (h1 : dictGet d "path" = some (PyVal.str p)) (h2 : isabs p = false) :
    ∃ d2, get_batch_kwargs_caller_after (BKInput.dict d) = BKInput.dict d2
      ∧ dictGet d2 "path" = some (PyVal.str ("../../" ++ p))
      ∧ d2 ≠ d := by
  have he : fix_path_dict d = dictSet d "path" (PyVal.str ("../../" ++ p)) := by
    simp [fix_path_dict, h1, h2]
  have hg : dictGet (fix_path_dict d) "path" = some (PyVal.str ("../../" ++ p)) := by
    rw [he, dictGet_dictSet_self]
  refine ⟨fix_path_dict d, rfl, hg, ?_⟩
  intro hEq
  rw [hEq, h1] at hg
  have hp : p = "../../" ++ p := by simpa using hg
  exact parent_prefix_ne p hp.symm

theorem C10_caller_override_mutated_witness :
    ∃ d2, get_batch_kwargs_caller_after (BKInput.dict [("path", PyVal.str "data/file.csv")])
        = BKInput.dict d2
      ∧ dictGet d2 "path" = some (PyVal.str ("../../" ++ "data/file.csv"))
      ∧ d2 ≠ [("path", PyVal.str "data/file.csv")] :=
  C10_caller_override_mutated [("path", PyVal.str "data/file.csv")] "data/file.csv" rfl rfl

/-- Claim C3: `get_batch_kwargs` resolves the source descriptor in priority
order.  (1) Any explicit descriptor mapping the caller passed — plain dict or
typed `BatchKwargs`, since `BatchKwargs` subclasses `dict` — is normalized and
returned, regardless of the suite's citations.  Otherwise the override is
absent and: (2) with no citation entries the absent override is normalized and
returned (still absent); (3) with citation entries none of which carries a
descriptor the result is absent; (4) otherwise the most recent
descriptor-carrying citation's descriptor is normalized and returned. -/
theorem C3_get_batch_kwargs_priority :
    (∀ (suite : Suite) (d : Dict),
        get_batch_kwargs suite (BKInput.dict d) = some (fix_path_dict d)
        ∧ get_batch_kwargs suite (BKInput.batchKwargs d) = some (fix_path_dict d))
  ∧ (∀ suite : Suite, suite.citations = [] →
        get_batch_kwargs suite BKInput.none = fix_path_in_batch_kwargs BKInput.none
        ∧ fix_path_in_batch_kwargs BKInput.none = Option.none)
  ∧ (∀ suite : Suite, suite.citations ≠ [] →
        (∀ c ∈ suite.citations, c.batch_kwargs = Option.none) →
        get_batch_kwargs suite BKInput.none = Option.none)
  ∧ (∀ (suite : Suite) (c : Citation) (d : Dict),
        (get_citations_with_batch_kwargs suite).getLast? = some c →
        c.batch_kwargs = some d →
        get_batch_kwargs suite BKInput.none = some (fix_path_dict d)) := by
  refine ⟨fun suite d => ⟨rfl, rfl⟩, ?_, ?_, ?_⟩
  · intro suite hc
    refine ⟨?_, rfl⟩
    simp [get_batch_kwargs, hc]
  · intro suite hne hall
    have hie : suite.citations.isEmpty = false := by
      cases hcs : suite.citations with
      | nil => exact absurd hcs hne
      | cons a rest => rfl
    have hfil : get_citations_with_batch_kwargs suite = [] := by
      rw [get_citations_with_batch_kwargs]
      rw [List.filter_eq_nil_iff]
      intro c hc
      rw [hall c hc]
      simp
    simp [get_batch_kwargs, hie, hfil]
  · intro suite c d hlast hbk
    have hne : suite.citations ≠ [] := by
      intro hcs
      rw [get_citations_with_batch_kwargs, hcs] at hlast
      simp at hlast
    have hie : suite.citations.isEmpty = false := by
      cases hcs : suite.citations with
      | nil => exact absurd hcs hne
      | cons a rest => rfl
    simp [get_batch_kwargs, hie, hlast, fix_path_opt, hbk]

theorem C3_get_batch_kwargs_priority_witness :
    get_batch_kwargs ⟨"s", [], [⟨some [("x", PyVal.int 1)]⟩]⟩
        (BKInput.dict [("path", PyVal.str "data/file.csv")])
      = some (fix_path_dict [("path", PyVal.str "data/file.csv")])
    ∧ get_batch_kwargs ⟨"s", [], [⟨some [("x", PyVal.int 1)]⟩]⟩
        (BKInput.batchKwargs [("path", PyVal.str "data/file.csv")])
      = some (fix_path_dict [("path", PyVal.str "data/file.csv")])
    ∧ get_batch_kwargs ⟨"s", [], []⟩ BKInput.none = Option.none
    ∧ get_batch_kwargs ⟨"s", [], [⟨Option.none⟩]⟩ BKInput.none = Option.none
    ∧ get_batch_kwargs ⟨"s", [], [⟨some [("x", PyVal.int 1)]⟩, ⟨Option.none⟩]⟩ BKInput.none
      = some (fix_path_dict [("x", PyVal.int 1)]) := by
  refine ⟨(C3_get_batch_kwargs_priority.1 _ _).1, (C3_get_batch_kwargs_priority.1 _ _).2,
    ?_, ?_, ?_⟩
  · exact ((C3_get_batch_kwargs_priority.2.1 ⟨"s", [], []⟩ rfl).1).trans
      (C3_get_batch_kwargs_priority.2.1 ⟨"s", [], []⟩ rfl).2
  · exact C3_get_batch_kwargs_priority.2.2.1 ⟨"s", [], [⟨Option.none⟩]⟩ (by simp)
      (by intro c hc; simp at hc; rw [hc])
  · exact C3_get_batch_kwargs_priority.2.2.2 _ ⟨some [("x", PyVal.int 1)]⟩
      [("x", PyVal.int 1)] rfl rfl

/-- Claim C7: rendering a suite with zero rules yields exactly the header markdown
and code cells, the authoring intro, the table section header with its "none
found" cell, the column section header with its "none found" cell, and the
footer markdown and code cells, in that order — no per-rule executable cell
appears. -/
theorem C7_render_empty_suite (name : String) (cits : List Citation) (bk : BKInput) :
    render ⟨Option.none⟩ (RenderInput.suite ⟨name, [], cits⟩) bk =
      Except.ok
        [Cell.markdown "HEADER.md" [("suite_name", TParam.s name)],
         Cell.code "header.py" true
           [("suite_name", TParam.s name),
            ("batch_kwargs", TParam.d ((get_batch_kwargs ⟨name, [], cits⟩ bk).getD []))],
         Cell.markdown "AUTHORING_INTRO.md" [],
         Cell.markdown "TABLE_EXPECTATIONS_HEADER.md" [],
         Cell.markdown "TABLE_EXPECTATIONS_NOT_FOUND.md" [],
         Cell.markdown "COLUMN_EXPECTATIONS_HEADER.md" [],
         Cell.markdown "COLUMN_EXPECTATIONS_NOT_FOUND.md" [],
         Cell.markdown "FOOTER.md" [],
         Cell.code "footer.py" false []] := by
  rfl

theorem C7_render_empty_suite_witness :
    render ⟨Option.none⟩ (RenderInput.suite ⟨"mysuite", [], []⟩) BKInput.none =
      Except.ok
        [Cell.markdown "HEADER.md" [("suite_name", TParam.s "mysuite")],
         Cell.code "header.py" true
           [("suite_name", TParam.s "mysuite"), ("batch_kwargs", TParam.d [])],
         Cell.markdown "AUTHORING_INTRO.md" [],
         Cell.markdown "TABLE_EXPECTATIONS_HEADER.md" [],
         Cell.markdown "TABLE_EXPECTATIONS_NOT_FOUND.md" [],
         Cell.markdown "COLUMN_EXPECTATIONS_HEADER.md" [],
         Cell.markdown "COLUMN_EXPECTATIONS_NOT_FOUND.md" [],
         Cell.markdown "FOOTER.md" [],
         Cell.code "footer.py" false []] := by
  exact C7_render_empty_suite "mysuite" [] BKInput.none

/-- Claim C8: rendering a suite holding one table-scope rule and two rules on one
column `x` emits exactly one table executable cell and exactly one per-column
header cell for `x` followed immediately by the two executable cells for the
rules on `x`, in suite order. -/
theorem C8_render_one_table_two_column (cfg : RendererConfig) (name : String)
    (cits : List Citation) (bk : BKInput) (t c1 c2 : Expectation) (x : PyVal)
    (ht : dictGet t.kwargs "column" = Option.none)
    (h1 : dictGet c1.kwargs "column" = some x)
    (h2 : dictGet c2.kwargs "column" = some x)
    (hx : x ≠ PyVal.str "table_expectations") :
    render cfg (RenderInput.suite ⟨name, [t, c1, c2], cits⟩) bk =
      Except.ok
        (add_header cfg name (get_batch_kwargs ⟨name, [t, c1, c2], cits⟩ bk)
          ++ Cell.markdown "AUTHORING_INTRO.md" []
            :: ([Cell.markdown "TABLE_EXPECTATIONS_HEADER.md" [],
                 table_expectation_cell t,
                 Cell.markdown "COLUMN_EXPECTATIONS_HEADER.md" [],
                 Cell.markdown "COLUMN_EXPECTATIONS.md" [("column", TParam.p x)],
                 column_expectation_cell c1,
                 column_expectation_cell c2]
                ++ add_footer)) := by
  have hbt : (PyVal.str "table_expectations" == x) = false :=
    beq_eq_false_iff_ne.2 (Ne.symm hx)
  have hxbt : (x == PyVal.str "table_expectations") = false :=
    beq_eq_false_iff_ne.2 hx
  have s1 : groupStep [(PyVal.str "table_expectations", [])] t
      = [(PyVal.str "table_expectations", [t])] := by
    simp [groupStep, ht, bucketAppend]
  have s2 : groupStep [(PyVal.str "table_expectations", [t])] c1
      = [(PyVal.str "table_expectations", [t]), (x, [c1])] := by
    simp [groupStep, h1, bucketHasKey, hbt]
  have s3 : groupStep [(PyVal.str "table_expectations", [t]), (x, [c1])] c2
      = [(PyVal.str "table_expectations", [t]), (x, [c1, c2])] := by
    simp [groupStep, h2, bucketHasKey, bucketAppend, hbt, Ne.symm hx]
  have hg : get_expectations_by_column [t, c1, c2]
      = [(PyVal.str "table_expectations", [t]), (x, [c1, c2])] := by
    rw [get_expectations_by_column]
    simp only [List.foldl_cons, List.foldl_nil]
    rw [s1, s2, s3]
  have htab : add_table_level_expectations
      [(PyVal.str "table_expectations", [t]), (x, [c1, c2])]
      = [table_expectation_cell t] := by
    simp [add_table_level_expectations, bucketGet]
  have hpop : bucketPop [(PyVal.str "table_expectations", [t]), (x, [c1, c2])]
      (PyVal.str "table_expectations") = [(x, [c1, c2])] := by
    simp [bucketPop, hxbt]
  have hcol : add_column_level_expectations [(x, [c1, c2])]
      = [Cell.markdown "COLUMN_EXPECTATIONS.md" [("column", TParam.p x)],
         column_expectation_cell c1, column_expectation_cell c2] := by
    simp [add_column_level_expectations, column_bucket_cells]
  have hcells : add_expectation_cells_from_suite [t, c1, c2]
      = [Cell.markdown "TABLE_EXPECTATIONS_HEADER.md" [],
         table_expectation_cell t,
         Cell.markdown "COLUMN_EXPECTATIONS_HEADER.md" [],
         Cell.markdown "COLUMN_EXPECTATIONS.md" [("column", TParam.p x)],
         column_expectation_cell c1,
         column_expectation_cell c2] := by
    rw [add_expectation_cells_from_suite]
    rw [hg, htab, hpop, hcol]
    rfl
  simp only [render]
  rw [hcells]

theorem C8_render_one_table_two_column_witness :
    render ⟨Option.none⟩
        (RenderInput.suite
          ⟨"s",
           [⟨"expect_table_row_count_to_be_between", [("min_value", PyVal.int 1)], []⟩,
            ⟨"expect_column_to_exist", [("column", PyVal.str "x")], []⟩,
            ⟨"expect_column_values_to_not_be_null", [("column", PyVal.str "x")], []⟩],
           []⟩)
        BKInput.none =
      Except.ok
        (add_header ⟨Option.none⟩ "s"
            (get_batch_kwargs
              ⟨"s",
               [⟨"expect_table_row_count_to_be_between", [("min_value", PyVal.int 1)], []⟩,
                ⟨"expect_column_to_exist", [("column", PyVal.str "x")], []⟩,
                ⟨"expect_column_values_to_not_be_null", [("column", PyVal.str "x")], []⟩],
               []⟩
              BKInput.none)
          ++ Cell.markdown "AUTHORING_INTRO.md" []
            :: ([Cell.markdown "TABLE_EXPECTATIONS_HEADER.md" [],
                 table_expectation_cell
                   ⟨"expect_table_row_count_to_be_between", [("min_value", PyVal.int 1)], []⟩,
                 Cell.markdown "COLUMN_EXPECTATIONS_HEADER.md" [],
                 Cell.markdown "COLUMN_EXPECTATIONS.md" [("column", TParam.p (PyVal.str "x"))],
                 column_expectation_cell
                   ⟨"expect_column_to_exist", [("column", PyVal.str "x")], []⟩,
                 column_expectation_cell
                   ⟨"expect_column_values_to_not_be_null", [("column", PyVal.str "x")], []⟩]
                ++ add_footer)) := by
  exact C8_render_one_table_two_column ⟨Option.none⟩ "s" [] BKInput.none
    ⟨"expect_table_row_count_to_be_between", [("min_value", PyVal.int 1)], []⟩
    ⟨"expect_column_to_exist", [("column", PyVal.str "x")], []⟩
    ⟨"expect_column_values_to_not_be_null", [("column", PyVal.str "x")], []⟩
    (PyVal.str "x") rfl rfl rfl (by decide)

theorem mem_firstSeenCols : ∀ (l : List Expectation) (c : PyVal),
    c ∈ firstSeenCols l ↔ ∃ e ∈ l, dictGet e.kwargs "column" = some c
  | [], c => by simp [firstSeenCols]
  | e :: rest, c => by
      cases hcol : dictGet e.kwargs "column" with
      | none =>
          simp only [firstSeenCols, hcol]
          rw [mem_firstSeenCols rest c]
          constructor
          · rintro ⟨e2, he2, hc2⟩
            exact ⟨e2, List.mem_cons_of_mem _ he2, hc2⟩
          · rintro ⟨e2, he2, hc2⟩
            rcases List.mem_cons.1 he2 with rfl | h
            · rw [hcol] at hc2
              cases hc2
            · exact ⟨e2, h, hc2⟩
      | some c0 =>
          simp only [firstSeenCols, hcol, List.mem_cons, List.mem_filter]
          rw [mem_firstSeenCols rest c]
          constructor
          · rintro (rfl | ⟨⟨e2, he2, hc2⟩, hneq⟩)
            · exact ⟨e, Or.inl rfl, hcol⟩
            · exact ⟨e2, Or.inr he2, hc2⟩
          · rintro ⟨e2, rfl | h, hc2⟩
            · left
              rw [hcol] at hc2
              exact (Option.some.inj hc2).symm
            · by_cases hcc : c = c0
              · left
                exact hcc
              · right
                exact ⟨⟨e2, h, hc2⟩, by simp [hcc]⟩

theorem firstSeenCols_append_none (e : Expectation)
    (he : dictGet e.kwargs "column" = Option.none) :
    ∀ l : List Expectation, firstSeenCols (l ++ [e]) = firstSeenCols l
  | [] => by simp only [List.nil_append, firstSeenCols, he]
  | a :: rest => by
      cases ha : dictGet a.kwargs "column" with
      | none =>
          rw [List.cons_append]
          simp only [firstSeenCols, ha]
          exact firstSeenCols_append_none e he rest
      | some ca =>
          rw [List.cons_append]
          simp only [firstSeenCols, ha, firstSeenCols_append_none e he rest]

theorem firstSeenCols_append_new (e : Expectation) (c : PyVal)
    (he : dictGet e.kwargs "column" = some c) :
    ∀ l : List Expectation, c ∉ firstSeenCols l →
      firstSeenCols (l ++ [e]) = firstSeenCols l ++ [c]
  | [], _ => by simp [firstSeenCols, he]
  | a :: rest, hm => by
      cases ha : dictGet a.kwargs "column" with
      | none =>
          rw [List.cons_append]
          simp only [firstSeenCols, ha] at hm ⊢
          exact firstSeenCols_append_new e c he rest hm
      | some ca =>
          rw [List.cons_append]
          simp only [firstSeenCols, ha, List.mem_cons, List.mem_filter] at hm ⊢
          have hcca : c ≠ ca := fun h => hm (Or.inl h)
          have hrest : c ∉ firstSeenCols rest := by
            intro hr
            exact hm (Or.inr ⟨hr, by simp [hcca]⟩)
          rw [firstSeenCols_append_new e c he rest hrest, List.filter_append]
          simp [List.filter_cons, hcca]

theorem firstSeenCols_append_mem (e : Expectation) (c : PyVal)
    (he : dictGet e.kwargs "column" = some c) :
    ∀ l : List Expectation, c ∈ firstSeenCols l →
      firstSeenCols (l ++ [e]) = firstSeenCols l
  | [], hm => by simp [firstSeenCols] at hm
  | a :: rest, hm => by
      cases ha : dictGet a.kwargs "column" with
      | none =>
          rw [List.cons_append]
          simp only [firstSeenCols, ha] at hm ⊢
          exact firstSeenCols_append_mem e c he rest hm
      | some ca =>
          rw [List.cons_append]
          simp only [firstSeenCols, ha, List.mem_cons, List.mem_filter] at hm ⊢
          by_cases hcca : c = ca
          · subst hcca
            by_cases hr : c ∈ firstSeenCols rest
            · rw [firstSeenCols_append_mem e c he rest hr]
            · rw [firstSeenCols_append_new e c he rest hr, List.filter_append]
              simp [List.filter_cons]
          · have hr : c ∈ firstSeenCols rest := by
              rcases hm with h | ⟨h, _⟩
              · exact absurd h hcca
              · exact h
            rw [firstSeenCols_append_mem e c he rest hr]

theorem bucketAppend_keys (buckets : Buckets) (key : PyVal) (exp : Expectation) :
    (bucketAppend buckets key exp).map Prod.fst = buckets.map Prod.fst := by
  rw [bucketAppend, List.map_map]
  apply List.map_congr_left
  intro b _
  simp only [Function.comp]
  by_cases h : (b.1 == key) = true
  · rw [if_pos h]
  · rw [if_neg h]

theorem groupStep_keys (acc : Buckets) (e : Expectation) :
    ∃ ext, (groupStep acc e).map Prod.fst = acc.map Prod.fst ++ ext := by
  cases hcol : dictGet e.kwargs "column" with
  | none =>
      refine ⟨[], ?_⟩
      simp only [groupStep, hcol]
      rw [bucketAppend_keys, List.append_nil]
  | some c =>
      by_cases h : bucketHasKey acc c = true
      · refine ⟨[], ?_⟩
        simp only [groupStep, hcol, h, if_true]
        rw [bucketAppend_keys, List.append_nil]
      · refine ⟨[c], ?_⟩
        simp only [groupStep, hcol]
        rw [if_neg h, List.map_append]
        rfl

theorem foldl_groupStep_keys : ∀ (l : List Expectation) (acc : Buckets),
    ∃ ext, (List.foldl groupStep acc l).map Prod.fst = acc.map Prod.fst ++ ext
  | [], acc => ⟨[], by simp⟩
  | e :: rest, acc => by
      obtain ⟨ext2, h2⟩ := foldl_groupStep_keys rest (groupStep acc e)
      obtain ⟨ext1, h1⟩ := groupStep_keys acc e
      exact ⟨ext1 ++ ext2, by rw [List.foldl_cons, h2, h1, List.append_assoc]⟩

theorem groupStep_canon (p : List Expectation) (e : Expectation)
    (hp : ∀ e2 ∈ p, dictGet e2.kwargs "column" ≠ some (PyVal.str "table_expectations"))
    (he : dictGet e.kwargs "column" ≠ some (PyVal.str "table_expectations")) :
    groupStep (canonBuckets p) e = canonBuckets (p ++ [e]) := by
  have hkeyne : ∀ c ∈ firstSeenCols p, (c == PyVal.str "table_expectations") = false := by
    intro c hc
    rcases (mem_firstSeenCols p c).1 hc with ⟨e2, he2, hc2⟩
    exact beq_eq_false_iff_ne.2 (fun hEq => hp e2 he2 (hEq ▸ hc2))
  cases hcol : dictGet e.kwargs "column" with
  | none =>
      have hnc : hasColumn e = false := by simp [hasColumn, hcol]
      simp only [groupStep, hcol]
      rw [canonBuckets, canonBuckets, bucketAppend, List.map_cons]
      rw [firstSeenCols_append_none e hcol]
      congr 1
      · rw [if_pos (by simp)]
        rw [List.filter_append]
        simp [List.filter_cons, hnc]
      · rw [List.map_map]
        apply List.map_congr_left
        intro c hc
        have hcne := hkeyne c hc
        simp only [Function.comp]
        rw [if_neg (by simp [hcne])]
        rw [List.filter_append]
        have hci : colIs c e = false := by simp [colIs, hcol]
        simp [List.filter_cons, hci]
  | some c =>
      have hc_ne : c ≠ PyVal.str "table_expectations" := fun hEq => he (by rw [hcol, hEq])
      have hbtc : (PyVal.str "table_expectations" == c) = false :=
        beq_eq_false_iff_ne.2 (Ne.symm hc_ne)
      have hce : colIs c e = true := by simp [colIs, hcol]
      have hasCol : hasColumn e = true := by simp [hasColumn, hcol]
      have hciF : ∀ c2, c2 ≠ c → colIs c2 e = false := by
        intro c2 hne
        simp only [colIs, hcol]
        rw [beq_eq_false_iff_ne]
        intro h
        exact hne (Option.some.inj h).symm
      by_cases hm : c ∈ firstSeenCols p
      · have hhk : bucketHasKey (canonBuckets p) c = true := by
          simp only [canonBuckets, bucketHasKey, List.any_cons, hbtc, Bool.false_or]
          rw [List.any_eq_true]
          exact ⟨(c, p.filter (colIs c)), List.mem_map.2 ⟨c, hm, rfl⟩, by simp⟩
        simp only [groupStep, hcol, hhk, if_true]
        rw [canonBuckets, canonBuckets, bucketAppend, List.map_cons]
        rw [firstSeenCols_append_mem e c hcol p hm]
        congr 1
        · rw [if_neg (by simp [hbtc])]
          simp [List.filter_append, List.filter_cons, hasCol]
        · rw [List.map_map]
          apply List.map_congr_left
          intro c2 hc2
          simp only [Function.comp]
          by_cases hcc : (c2 == c) = true
          · have hcc2 : c2 = c := by simpa using hcc
            subst hcc2
            rw [if_pos hcc]
            simp [List.filter_append, List.filter_cons, hce]
          · rw [if_neg hcc]
            have hci : colIs c2 e = false := hciF c2 (by simpa using hcc)
            simp [List.filter_append, List.filter_cons, hci]
      · have hhk : bucketHasKey (canonBuckets p) c = false := by
          simp only [canonBuckets, bucketHasKey, List.any_cons, hbtc, Bool.false_or]
          rw [Bool.eq_false_iff]
          intro hany
          rcases List.any_eq_true.1 hany with ⟨b, hb, hbc⟩
          rcases List.mem_map.1 hb with ⟨c2, hc2, rfl⟩
          have hc2c : c2 = c := by simpa using hbc
          exact hm (hc2c ▸ hc2)
        simp only [groupStep, hcol]
        rw [if_neg (by simp [hhk])]
        rw [canonBuckets, canonBuckets]
        rw [firstSeenCols_append_new e c hcol p hm]
        rw [List.map_append, List.cons_append]
        congr 1
        · simp [List.filter_append, List.filter_cons, hasCol]
        · congr 1
          · apply List.map_congr_left
            intro c2 hc2
            have hne : c2 ≠ c := fun hEq => hm (hEq ▸ hc2)
            have hci : colIs c2 e = false := hciF c2 hne
            simp [List.filter_append, List.filter_cons, hci]
          · have hnil : p.filter (colIs c) = [] := by
              rw [List.filter_eq_nil_iff]
              intro e2 he2 hcE
              refine hm ((mem_firstSeenCols p c).2 ⟨e2, he2, ?_⟩)
              simpa [colIs] using hcE
            simp [List.filter_append, List.filter_cons, hnil, hce]

theorem foldl_groupStep_canon : ∀ (rest p : List Expectation),
    (∀ e ∈ p, dictGet e.kwargs "column" ≠ some (PyVal.str "table_expectations")) →
    (∀ e ∈ rest, dictGet e.kwargs "column" ≠ some (PyVal.str "table_expectations")) →
    List.foldl groupStep (canonBuckets p) rest = canonBuckets (p ++ rest)
  | [], p, _, _ => by rw [List.foldl_nil, List.append_nil]
  | e :: rest, p, hp, hr => by
      rw [List.foldl_cons]
      rw [groupStep_canon p e hp (hr e (List.mem_cons_self e rest))]
      rw [foldl_groupStep_canon rest (p ++ [e])
        (by
          intro e2 he2
          rcases List.mem_append.1 he2 with h | h
          · exact hp e2 h
          · rcases List.mem_singleton.1 h with rfl
            exact hr e2 (List.mem_cons_self e2 rest))
        (fun e2 he2 => hr e2 (List.mem_cons_of_mem e he2))]
      rw [List.append_assoc]
      rfl

/-- Claim C4: `_get_expectations_by_column` always yields the `table_expectations`
bucket as its first entry (even when every rule has a `column`), and — for
suites whose column values do not collide with the literal bucket key — the
whole grouping equals the canonical partition: table bucket holding the
column-free rules in suite order, then one bucket per column value in
first-seen order, each holding that column's rules in suite order (an
order-preserving filter; nothing is sorted). -/
theorem C4_grouping_invariants :
    (∀ exps : List Expectation, ∃ tb bs,
        get_expectations_by_column exps = (PyVal.str "table_expectations", tb) :: bs)
  ∧ (∀ exps : List Expectation,
        (∀ e ∈ exps, dictGet e.kwargs "column" ≠ some (PyVal.str "table_expectations")) →
        get_expectations_by_column exps = canonBuckets exps) := by
  constructor
  · intro exps
    obtain ⟨ext, hk⟩ :=
      foldl_groupStep_keys exps [(PyVal.str "table_expectations", [])]
    cases hres : List.foldl groupStep [(PyVal.str "table_expectations", [])] exps with
    | nil =>
        rw [hres] at hk
        simp at hk
    | cons b bs =>
        rw [hres] at hk
        obtain ⟨b1, b2⟩ := b
        simp only [List.map_cons, List.map_nil, List.singleton_append] at hk
        have hb1 : b1 = PyVal.str "table_expectations" := (List.cons.injEq _ _ _ _ ▸ hk).1
        exact ⟨b2, bs, by rw [get_expectations_by_column, hres, hb1]⟩
  · intro exps h
    have hcan := foldl_groupStep_canon exps [] (by simp) h
    rw [List.nil_append] at hcan
    rw [get_expectations_by_column]
    exact hcan

theorem C4_grouping_invariants_witness :
    (∃ tb bs,
        get_expectations_by_column
          [⟨"r1", [("column", PyVal.str "b")], []⟩,
           ⟨"r2", [("column", PyVal.str "a")], []⟩,
           ⟨"r3", [("column", PyVal.str "b")], []⟩]
          = (PyVal.str "table_expectations", tb) :: bs)
    ∧ get_expectations_by_column
          [⟨"r1", [("column", PyVal.str "b")], []⟩,
           ⟨"r2", [("column", PyVal.str "a")], []⟩,
           ⟨"r3", [("column", PyVal.str "b")], []⟩]
        = canonBuckets
          [⟨"r1", [("column", PyVal.str "b")], []⟩,
           ⟨"r2", [("column", PyVal.str "a")], []⟩,
           ⟨"r3", [("column", PyVal.str "b")], []⟩] :=
  ⟨C4_grouping_invariants.1 _, C4_grouping_invariants.2 _ (by decide)⟩

end SuiteEditNotebook
